import Mathlib

/-!
Verification development for the nonzu-deployments streaming TWAP oracle.

Shallow embedding of:
- `src/binance-oracle/src/twap/calculator.rs` (`TwapCalculator`)
- `src/binance-oracle/src/websocket/trade_parser.rs` (`TradeBuffer`)
- `src/time-oracle/src/main.rs` (`PreciseTimer`)
- `src/binance-oracle/src/triggers/binance_twap_trigger.rs` (`BinanceTwapTrigger`)

f64 prices and quantities are modelled as exact rationals (ℚ); millisecond
timestamps and counters (`u64`) as ℕ, with `saturating_sub` mapped to
truncated ℕ subtraction. Stateful methods become explicit state-passing
functions; the caller supplies the value of `Utc::now()` / monotonic elapsed
time as a ℕ argument.
-/

/-- Embeds `Trade` from `trade_parser.rs`: price and quantity as exact
rationals, timestamp in milliseconds. -/
structure Trade where
  price : ℚ
  quantity : ℚ
  timestamp : ℕ
  is_buyer_maker : Bool
deriving DecidableEq, Repr

/-- Embeds `TwapResult` from `calculator.rs`. -/
structure TwapResult where
  price : ℚ
  volume : ℚ
  num_trades : ℕ
  timestamp : ℕ
  spread : Option ℚ
deriving DecidableEq, Repr

/-- Embeds the state of `TwapCalculator` (`calculator.rs`): the window size
in milliseconds (the code converts its `Duration` with `as_millis`), the
`VecDeque<Trade>` as a list (front = head, back = last), and the published
`last_twap` snapshot. -/
structure TwapCalculator where
  window_ms : ℕ
  trades : List Trade
  last_twap : Option TwapResult
deriving DecidableEq, Repr

/-- Embeds the `while let Some(front) = trades.front()` loop of
`TwapCalculator::remove_old_trades`: pop from the front while the front
trade's timestamp is strictly below the cutoff, stop at the first front
element at or above it. -/
def evictFront (cutoff : ℕ) : List Trade → List Trade
  | [] => []
  | t :: ts => if t.timestamp < cutoff then evictFront cutoff ts else t :: ts

/-- Embeds `TwapCalculator::remove_old_trades`: the cutoff is
`now.saturating_sub(window_ms)` (ℕ subtraction saturates exactly like
`saturating_sub`). -/
def remove_old_trades (now window_ms : ℕ) (trades : List Trade) : List Trade :=
  evictFront (now - window_ms) trades

/-- One step of the running-minimum in `calculate_twap`'s loop
(`if trade.price < min_price { min_price = trade.price }`). The sentinel
`f64::MAX` start value is modelled as `none`. -/
def minStep (m : Option ℚ) (t : Trade) : Option ℚ :=
  match m with
  | none => some t.price
  | some m' => some (if t.price < m' then t.price else m')

/-- One step of the running-maximum in `calculate_twap`'s loop
(`if trade.price > max_price { max_price = trade.price }`). The sentinel
`f64::MIN` start value is modelled as `none`. -/
def maxStep (m : Option ℚ) (t : Trade) : Option ℚ :=
  match m with
  | none => some t.price
  | some m' => some (if m' < t.price then t.price else m')

/-- Embeds `TwapCalculator::calculate_twap`: returns `none` on an empty
window, otherwise accumulates `total_value`, `total_volume`, running min and
max price in one pass, returns `none` when `total_volume == 0.0`, and
otherwise the volume-weighted price, total volume, trade count, timestamp
`now`, and the percentage spread. The spread guard
`min_price != f64::MAX && max_price != f64::MIN` is modelled as both
accumulators being `some`. -/
def calculate_twap (now : ℕ) (trades : List Trade) : Option TwapResult :=
  if trades.isEmpty then none
  else
    let total_value := trades.foldl (fun acc t => acc + t.price * t.quantity) 0
    let total_volume := trades.foldl (fun acc t => acc + t.quantity) 0
    let min_price := trades.foldl minStep none
    let max_price := trades.foldl maxStep none
    if total_volume = 0 then none
    else
      let spread : Option ℚ :=
        match min_price, max_price with
        | some mn, some mx => some ((mx - mn) / mn * 100)
        | _, _ => none
      some { price := total_value / total_volume
             volume := total_volume
             num_trades := trades.length
             timestamp := now
             spread := spread }

/-- Embeds `TwapCalculator::add_trades_batch`: push every new trade at the
back, evict old trades, recompute, and replace `last_twap` only when the
recomputation produced a value. Returns the new state and the result. -/
def TwapCalculator.add_trades_batch (c : TwapCalculator) (now : ℕ)
    (new_trades : List Trade) : TwapCalculator × Option TwapResult :=
  let trades := remove_old_trades now c.window_ms (c.trades ++ new_trades)
  let result := calculate_twap now trades
  ({ c with
      trades := trades
      last_twap := match result with
        | some t => some t
        | none => c.last_twap },
   result)

/-- Embeds `TwapCalculator::add_trade`: push one trade at the back, evict,
recompute, and replace `last_twap` only on `Some`. -/
def TwapCalculator.add_trade (c : TwapCalculator) (now : ℕ) (t : Trade) :
    TwapCalculator × Option TwapResult :=
  let trades := remove_old_trades now c.window_ms (c.trades ++ [t])
  let result := calculate_twap now trades
  ({ c with
      trades := trades
      last_twap := match result with
        | some t => some t
        | none => c.last_twap },
   result)

/-- Embeds `TwapCalculator::clear`. -/
def TwapCalculator.clear (c : TwapCalculator) : TwapCalculator :=
  { c with trades := [], last_twap := none }

/-- Embeds `TwapCalculator::get_latest_twap`. -/
def TwapCalculator.get_latest_twap (c : TwapCalculator) : Option TwapResult :=
  c.last_twap

/-- Embeds one capped push of `TradeBuffer::add_trade` (`trade_parser.rs`):
`buffer.push(trade); if buffer.len() > max_buffer_size { buffer.remove(0); }`.
`remove(0)` on the just-pushed non-empty vector is `drop 1`. -/
def buffer_push (max_buffer_size : ℕ) (buf : List Trade) (t : Trade) : List Trade :=
  let b := buf ++ [t]
  if max_buffer_size < b.length then b.drop 1 else b

/-- Embeds the state of `TradeBuffer`: one vector per tracked symbol and the
shared cap. -/
structure TradeBuffer where
  btc_trades : List Trade
  eth_trades : List Trade
  max_buffer_size : ℕ
deriving DecidableEq, Repr

/-- Embeds `TradeBuffer::new`. -/
def TradeBuffer.new (max_buffer_size : ℕ) : TradeBuffer :=
  { btc_trades := [], eth_trades := [], max_buffer_size := max_buffer_size }

/-- Embeds `TradeBuffer::add_trade`: dispatch on the symbol string, capped
push into the matching buffer, unknown symbols silently ignored. -/
def TradeBuffer.add_trade (b : TradeBuffer) (symbol : String) (t : Trade) : TradeBuffer :=
  if symbol = "BTCUSDT" then
    { b with btc_trades := buffer_push b.max_buffer_size b.btc_trades t }
  else if symbol = "ETHUSDT" then
    { b with eth_trades := buffer_push b.max_buffer_size b.eth_trades t }
  else b

/-- Embeds `TradeBuffer::get_btc_trades` (clones the current vector). -/
def TradeBuffer.get_btc_trades (b : TradeBuffer) : List Trade :=
  b.btc_trades

/-- Embeds `TradeBuffer::get_eth_trades`. -/
def TradeBuffer.get_eth_trades (b : TradeBuffer) : List Trade :=
  b.eth_trades

/-- Embeds `TradeBuffer::clear_btc`. -/
def TradeBuffer.clear_btc (b : TradeBuffer) : TradeBuffer :=
  { b with btc_trades := [] }

/-- Embeds `TradeBuffer::clear_eth`. -/
def TradeBuffer.clear_eth (b : TradeBuffer) : TradeBuffer :=
  { b with eth_trades := [] }

/-- Embeds the state of `PreciseTimer` (`time-oracle/src/main.rs`). The
monotonic `start_time` is implicit: `should_tick` receives the elapsed
milliseconds since it as an argument. -/
structure PreciseTimer where
  interval_ms : ℕ
  next_tick : ℕ
  tick_count : ℕ
deriving DecidableEq, Repr

/-- Embeds `PreciseTimer::new`: `next_tick` starts at one interval,
`tick_count` at zero. -/
def PreciseTimer.new (interval_ms : ℕ) : PreciseTimer :=
  { interval_ms := interval_ms, next_tick := interval_ms, tick_count := 0 }

/-- Embeds `PreciseTimer::should_tick`, with the measured
`start_time.elapsed().as_millis()` passed in as `elapsed_ms`. Returns the
`Option<(target_time, actual_time)>` of the Rust method together with the
updated timer state. -/
def PreciseTimer.should_tick (t : PreciseTimer) (elapsed_ms : ℕ) :
    Option (ℕ × ℕ) × PreciseTimer :=
  if t.next_tick ≤ elapsed_ms then
    if t.next_tick + t.interval_ms < elapsed_ms then
      let missed_intervals := (elapsed_ms - t.next_tick) / t.interval_ms
      let tick_count := t.tick_count + missed_intervals + 1
      (some (t.next_tick, elapsed_ms),
       { t with tick_count := tick_count, next_tick := tick_count * t.interval_ms })
    else
      let tick_count := t.tick_count + 1
      (some (t.next_tick, elapsed_ms),
       { t with tick_count := tick_count, next_tick := tick_count * t.interval_ms })
  else
    (none, t)

/-- Embeds the configuration fields of `BinanceTwapTrigger`
(`binance_twap_trigger.rs`): the constructor sets
`min_trades_for_update = 1` and `price_change_threshold = 0.0`, but the
fields stay symbolic here. -/
structure TriggerConfig where
  update_interval : ℕ
  min_trades_for_update : ℕ
  price_change_threshold : ℚ
deriving DecidableEq, Repr

/-- Embeds the mutable state of `BinanceTwapTrigger`: `last_update` as the
value of the monotonic clock (ms) at the previous emission, and the cached
`last_btc_price`. -/
structure TriggerState where
  last_update : ℕ
  last_btc_price : Option ℚ
deriving DecidableEq, Repr

/-- Embeds the payload of the `TxRequest` built by
`BinanceTwapTrigger::should_trigger`: the scaled fixed-point price
`(btc.price * 1e18).round()` and the metadata taken from the TWAP result. -/
structure TxRequest where
  feed_id : String
  price_scaled : ℤ
  trades : ℕ
  volume : ℚ
deriving DecidableEq, Repr

/-- Embeds `BinanceTwapTrigger::should_trigger`. Inputs: the pause-gate
reading `paused` (`error_control.is_worker_pool_paused()`), the current
monotonic time `now` (ms), the trigger state, and the two calculators'
published `get_latest_twap()` snapshots. Mirrors the control flow: paused ⇒
no request; not enough time elapsed ⇒ no request; no BTC TWAP ⇒ no request;
too few trades ⇒ no request; otherwise emit the request and update
`last_update` and `last_btc_price`. Returns the new state and the optional
request. -/
def should_trigger (cfg : TriggerConfig) (paused : Bool) (now : ℕ)
    (st : TriggerState) (btc_twap eth_twap : Option TwapResult) :
    TriggerState × Option TxRequest :=
  if paused then (st, none)
  else
    let time_since_last := now - st.last_update
    if time_since_last < cfg.update_interval then (st, none)
    else
      match btc_twap with
      | some btc =>
        if btc.num_trades < cfg.min_trades_for_update then (st, none)
        else
          let price_scaled : ℤ := round (btc.price * 10 ^ 18)
          ({ last_update := now, last_btc_price := some btc.price },
           some { feed_id := "BTCUSD"
                  price_scaled := price_scaled
                  trades := btc.num_trades
                  volume := btc.volume })
      | none => (st, none)

/-! ### Helper lemmas -/

/-- The `total_volume` accumulation of `calculate_twap` is the sum of the
quantities. -/
theorem total_volume_fold : ∀ (ts : List Trade) (a : ℚ),
    ts.foldl (fun acc t => acc + t.quantity) a = a + (ts.map Trade.quantity).sum := by
  intro ts
  induction ts with
  | nil => intro a; simp
  | cons t ts ih =>
    intro a
    simp only [List.foldl_cons, List.map_cons, List.sum_cons, ih]
    ring

/-- The `total_value` accumulation of `calculate_twap` is the sum of
price × quantity. -/
theorem total_value_fold : ∀ (ts : List Trade) (a : ℚ),
    ts.foldl (fun acc t => acc + t.price * t.quantity) a =
      a + (ts.map fun t => t.price * t.quantity).sum := by
  intro ts
  induction ts with
  | nil => intro a; simp
  | cons t ts ih =>
    intro a
    simp only [List.foldl_cons, List.map_cons, List.sum_cons, ih]
    ring

theorem ite_lt_eq_min (x p : ℚ) : (if x < p then x else p) = min p x := by
  rcases le_or_lt p x with h | h
  · rw [if_neg (not_lt.mpr h), min_eq_left h]
  · rw [if_pos h, min_eq_right (le_of_lt h)]

theorem ite_lt_eq_max (x p : ℚ) : (if p < x then x else p) = max p x := by
  rcases le_or_lt x p with h | h
  · rw [if_neg (not_lt.mpr h), max_eq_left h]
  · rw [if_pos h, max_eq_right (le_of_lt h)]

/-- The running-minimum loop started after its first element tracks the fold
of `min`. -/
theorem foldl_minStep_some : ∀ (ts : List Trade) (p : ℚ),
    ts.foldl minStep (some p) = some ((ts.map Trade.price).foldl min p) := by
  intro ts
  induction ts with
  | nil => intro p; simp
  | cons t ts ih =>
    intro p
    simp only [List.foldl_cons, List.map_cons, minStep, ih, ite_lt_eq_min]

/-- The running-maximum loop started after its first element tracks the fold
of `max`. -/
theorem foldl_maxStep_some : ∀ (ts : List Trade) (p : ℚ),
    ts.foldl maxStep (some p) = some ((ts.map Trade.price).foldl max p) := by
  intro ts
  induction ts with
  | nil => intro p; simp
  | cons t ts ih =>
    intro p
    simp only [List.foldl_cons, List.map_cons, maxStep, ih, ite_lt_eq_max]

theorem foldl_minStep_cons (t : Trade) (rest : List Trade) :
    (t :: rest).foldl minStep none = some ((rest.map Trade.price).foldl min t.price) := by
  simp only [List.foldl_cons, minStep, foldl_minStep_some]

theorem foldl_maxStep_cons (t : Trade) (rest : List Trade) :
    (t :: rest).foldl maxStep none = some ((rest.map Trade.price).foldl max t.price) := by
  simp only [List.foldl_cons, maxStep, foldl_maxStep_some]

/-- A trade surviving the front-eviction loop of a timestamp-sorted window is
at or above the cutoff. -/
theorem evictFront_sorted (cutoff : ℕ) : ∀ (ts : List Trade),
    List.Sorted (fun a b : Trade => a.timestamp ≤ b.timestamp) ts →
    ∀ t ∈ evictFront cutoff ts, cutoff ≤ t.timestamp := by
  intro ts
  induction ts with
  | nil => intro _ t ht; simp [evictFront] at ht
  | cons a ts ih =>
    intro hs t ht
    rw [List.sorted_cons] at hs
    simp only [evictFront] at ht
    by_cases h : a.timestamp < cutoff
    · rw [if_pos h] at ht
      exact ih hs.2 t ht
    · rw [if_neg h] at ht
      push_neg at h
      rcases List.mem_cons.mp ht with rfl | hm
      · exact h
      · exact le_trans h (hs.1 t hm)

/-- The front-eviction loop keeps the window non-empty as soon as one element
is at or above the cutoff. -/
theorem evictFront_ne_nil (cutoff : ℕ) : ∀ (ts : List Trade),
    (∃ t ∈ ts, cutoff ≤ t.timestamp) → evictFront cutoff ts ≠ [] := by
  intro ts
  induction ts with
  | nil => rintro ⟨t, ht, -⟩; simp at ht
  | cons a ts ih =>
    rintro ⟨t, ht, htc⟩
    simp only [evictFront]
    by_cases h : a.timestamp < cutoff
    · rw [if_pos h]
      apply ih
      rcases List.mem_cons.mp ht with rfl | hm
      · exact absurd htc (by omega)
      · exact ⟨t, hm, htc⟩
    · rw [if_neg h]
      exact List.cons_ne_nil a ts

/-! ### Claim theorems -/

/-- C5: whenever the window is empty after eviction, both `add_trade` and
`add_trades_batch` return an absent result (`none`), never a default or
zero-valued `TwapResult`. -/
theorem empty_window_returns_absent (c : TwapCalculator) (now : ℕ)
    (new_trades : List Trade) (tr : Trade)
    (hb : remove_old_trades now c.window_ms (c.trades ++ new_trades) = [])
    (hs : remove_old_trades now c.window_ms (c.trades ++ [tr]) = []) :
    (c.add_trades_batch now new_trades).2 = none ∧
    (c.add_trade now tr).2 = none := by
  constructor
  · simp only [TwapCalculator.add_trades_batch, hb]
    simp [calculate_twap]
  · simp only [TwapCalculator.add_trade, hs]
    simp [calculate_twap]

/-- Witness for C5: a single stale trade (timestamp 10, window 100 ms,
now 1000) is fully evicted and the aggregator reports no value. -/
theorem empty_window_returns_absent_witness :
    ((⟨100, [], none⟩ : TwapCalculator).add_trades_batch 1000 [⟨1, 1, 10, false⟩]).2 = none ∧
    ((⟨100, [], none⟩ : TwapCalculator).add_trade 1000 ⟨1, 1, 10, false⟩).2 = none :=
  empty_window_returns_absent ⟨100, [], none⟩ 1000 [⟨1, 1, 10, false⟩] ⟨1, 1, 10, false⟩
    (by decide) (by decide)

/-- C7: with the pause gate asserted, `should_trigger` emits no request and
leaves the trigger state untouched, for every clock value, every trigger
state and every pair of published TWAP snapshots (so its outcome is
independent of TWAP freshness and trade counts). -/
theorem paused_trigger_emits_nothing (cfg : TriggerConfig) (now : ℕ)
    (st : TriggerState) (btc_twap eth_twap : Option TwapResult) :
    should_trigger cfg true now st btc_twap eth_twap = (st, none) := by
  simp [should_trigger]

/-- C10: a window whose quantities sum to zero yields `none` from
`calculate_twap` (the volume-weighted division is guarded), and in that case
`add_trades_batch` leaves the previously published `last_twap` in place. -/
theorem zero_volume_returns_none (now : ℕ) (ts : List Trade)
    (c : TwapCalculator) (new_trades : List Trade)
    (hne : ts ≠ [])
    (hsum : (ts.map Trade.quantity).sum = 0)
    (hbatch : ((remove_old_trades now c.window_ms (c.trades ++ new_trades)).map
        Trade.quantity).sum = 0) :
    calculate_twap now ts = none ∧
    (c.add_trades_batch now new_trades).2 = none ∧
    (c.add_trades_batch now new_trades).1.last_twap = c.last_twap := by
  have main : ∀ (l : List Trade), (l.map Trade.quantity).sum = 0 →
      calculate_twap now l = none := by
    intro l hl
    cases l with
    | nil => simp [calculate_twap]
    | cons t l' =>
      simp only [calculate_twap, List.isEmpty_cons, Bool.false_eq_true, if_false,
        total_volume_fold, zero_add, hl, if_pos]
  refine ⟨main ts hsum, ?_, ?_⟩
  · simp only [TwapCalculator.add_trades_batch, main _ hbatch]
  · simp only [TwapCalculator.add_trades_batch, main _ hbatch]

/-- Witness for C10: one trade with quantity 0 (the rest of the state
concrete), showing `none` and an unchanged published snapshot. -/
theorem zero_volume_returns_none_witness :
    calculate_twap 5 [⟨100, 0, 0, false⟩] = none ∧
    ((⟨100, [], some ⟨1, 1, 1, 1, none⟩⟩ : TwapCalculator).add_trades_batch 5
        [⟨100, 0, 50, false⟩]).2 = none ∧
    ((⟨100, [], some ⟨1, 1, 1, 1, none⟩⟩ : TwapCalculator).add_trades_batch 5
        [⟨100, 0, 50, false⟩]).1.last_twap = some ⟨1, 1, 1, 1, none⟩ :=
  zero_volume_returns_none 5 [⟨100, 0, 0, false⟩]
    ⟨100, [], some ⟨1, 1, 1, 1, none⟩⟩ [⟨100, 0, 50, false⟩]
    (by decide) (by simp) (by simp [remove_old_trades, evictFront])

/-- C2, counterexample to the claim as stated: eviction stops at the first
fresh front element, so with out-of-order insertion (a fresh trade in front
of a stale one) a trade older than `now - window_size` is retained. Window
100 ms, now 1000: the batch [timestamp 950, timestamp 10] is kept whole and
the timestamp-10 trade survives although 10 < 900. -/
theorem window_eviction_cex :
    ∃ t ∈ ((⟨100, [], none⟩ : TwapCalculator).add_trades_batch 1000
        [⟨1, 1, 950, false⟩, ⟨1, 1, 10, false⟩]).1.trades,
      t.timestamp < 1000 - 100 := by
  refine ⟨⟨1, 1, 10, false⟩, ?_, by norm_num⟩
  simp [TwapCalculator.add_trades_batch, remove_old_trades, evictFront]

/-- C2 as amended: if the trades in the window (existing ++ inserted) are in
non-decreasing timestamp order — the spec's documented in-order-delivery
assumption — then after `add_trade` or `add_trades_batch` every retained
trade has timestamp ≥ `now - window_size`. -/
theorem window_eviction_retains_fresh (c : TwapCalculator) (now : ℕ)
    (new_trades : List Trade) (tr : Trade)
    (hb : List.Sorted (fun a b : Trade => a.timestamp ≤ b.timestamp)
      (c.trades ++ new_trades))
    (hs : List.Sorted (fun a b : Trade => a.timestamp ≤ b.timestamp)
      (c.trades ++ [tr])) :
    (∀ t ∈ (c.add_trades_batch now new_trades).1.trades,
        now - c.window_ms ≤ t.timestamp) ∧
    (∀ t ∈ (c.add_trade now tr).1.trades,
        now - c.window_ms ≤ t.timestamp) := by
  constructor
  · intro t ht
    simp only [TwapCalculator.add_trades_batch, remove_old_trades] at ht
    exact evictFront_sorted (now - c.window_ms) _ hb t ht
  · intro t ht
    simp only [TwapCalculator.add_trade, remove_old_trades] at ht
    exact evictFront_sorted (now - c.window_ms) _ hs t ht

/-- Witness for C2 (amended): an in-order batch [950, 960] at now 1000 with
window 100 ms — every retained trade is at or above the cutoff 900. -/
theorem window_eviction_retains_fresh_witness :
    (∀ t ∈ ((⟨100, [], none⟩ : TwapCalculator).add_trades_batch 1000
        [⟨1, 1, 950, false⟩, ⟨1, 1, 960, false⟩]).1.trades,
        1000 - (⟨100, [], none⟩ : TwapCalculator).window_ms ≤ t.timestamp) ∧
    (∀ t ∈ ((⟨100, [], none⟩ : TwapCalculator).add_trade 1000
        ⟨1, 1, 950, false⟩).1.trades,
        1000 - (⟨100, [], none⟩ : TwapCalculator).window_ms ≤ t.timestamp) :=
  window_eviction_retains_fresh ⟨100, [], none⟩ 1000
    [⟨1, 1, 950, false⟩, ⟨1, 1, 960, false⟩] ⟨1, 1, 950, false⟩
    (by simp [List.sorted_cons]) (by simp)

/-- C8, counterexample to the claim as stated: `add_trade` can take a
populated window to empty without `clear`. Window 100 ms, now 1000, prior
window [timestamp 10], inserted trade timestamp 20: both are below the
cutoff 900 and eviction empties the window. -/
theorem populated_to_empty_cex :
    (⟨100, [⟨1, 1, 10, false⟩], none⟩ : TwapCalculator).trades ≠ [] ∧
    ((⟨100, [⟨1, 1, 10, false⟩], none⟩ : TwapCalculator).add_trade 1000
        ⟨1, 1, 20, false⟩).1.trades = [] := by
  constructor
  · simp
  · simp [TwapCalculator.add_trade, remove_old_trades, evictFront]

/-- C8 as amended: `add_trade`/`add_trades_batch` cannot empty the window as
long as at least one trade present after insertion (in particular a fresh
newly inserted one) has timestamp ≥ `now - window_size`; only inputs that
leave every trade stale can empty it, and `clear` remains the only other
Populated→Empty transition. -/
theorem populated_stays_populated (c : TwapCalculator) (now : ℕ)
    (new_trades : List Trade) (tr : Trade)
    (hb : ∃ t ∈ c.trades ++ new_trades, now - c.window_ms ≤ t.timestamp)
    (hs : ∃ t ∈ c.trades ++ [tr], now - c.window_ms ≤ t.timestamp) :
    (c.add_trades_batch now new_trades).1.trades ≠ [] ∧
    (c.add_trade now tr).1.trades ≠ [] := by
  constructor
  · simp only [TwapCalculator.add_trades_batch, remove_old_trades]
    exact evictFront_ne_nil (now - c.window_ms) _ hb
  · simp only [TwapCalculator.add_trade, remove_old_trades]
    exact evictFront_ne_nil (now - c.window_ms) _ hs

/-- Witness for C8 (amended): adding a fresh trade (timestamp 950, cutoff
900) keeps the window populated. -/
theorem populated_stays_populated_witness :
    ((⟨100, [⟨1, 1, 920, false⟩], none⟩ : TwapCalculator).add_trades_batch 1000
        [⟨1, 1, 950, false⟩]).1.trades ≠ [] ∧
    ((⟨100, [⟨1, 1, 920, false⟩], none⟩ : TwapCalculator).add_trade 1000
        ⟨1, 1, 950, false⟩).1.trades ≠ [] :=
  populated_stays_populated ⟨100, [⟨1, 1, 920, false⟩], none⟩ 1000
    [⟨1, 1, 950, false⟩] ⟨1, 1, 950, false⟩
    (⟨⟨1, 1, 950, false⟩, by simp, by norm_num⟩)
    (⟨⟨1, 1, 950, false⟩, by simp, by norm_num⟩)

/-- C3, counterexample to the claim as stated: a freshly constructed timer
(interval 100 ms, so `next_tick = 100`, `tick_count = 0`) polled once at
elapsed 350 ms is in the missed-interval case (350 > 100 + 100), yet the
recomputed counter is 3, not `floor(350/100) + 1 = 4`, and the next scheduled
tick is 300 < 350. -/
theorem timer_catch_up_cex :
    (PreciseTimer.new 100).next_tick + (PreciseTimer.new 100).interval_ms < 350 ∧
    ((PreciseTimer.new 100).should_tick 350).2.tick_count ≠ 350 / 100 + 1 ∧
    ((PreciseTimer.new 100).should_tick 350).2.next_tick < 350 := by
  decide

/-- C3 as amended: on any timer state satisfying `next_tick =
tick_count * interval` (which holds after every fire, though not in the
freshly constructed state), a poll with `elapsed > next_tick + interval`
fires exactly once, recomputes the counter to `floor(elapsed/interval) + 1`,
and sets `next_tick` to a value ≥ the current elapsed time. -/
theorem timer_catch_up_resync (t : PreciseTimer) (elapsed_ms : ℕ)
    (hpos : 0 < t.interval_ms)
    (hinv : t.next_tick = t.tick_count * t.interval_ms)
    (hlate : t.next_tick + t.interval_ms < elapsed_ms) :
    (t.should_tick elapsed_ms).1 = some (t.next_tick, elapsed_ms) ∧
    (t.should_tick elapsed_ms).2.tick_count = elapsed_ms / t.interval_ms + 1 ∧
    elapsed_ms ≤ (t.should_tick elapsed_ms).2.next_tick := by
  have hc1 : t.next_tick ≤ elapsed_ms :=
    le_of_lt (lt_of_le_of_lt (Nat.le_add_right _ _) hlate)
  have h1 : t.interval_ms * t.tick_count ≤ elapsed_ms := by
    rw [mul_comm]
    omega
  have hcount : t.tick_count + (elapsed_ms - t.next_tick) / t.interval_ms + 1 =
      elapsed_ms / t.interval_ms + 1 := by
    rw [hinv, mul_comm, Nat.sub_mul_div elapsed_ms t.interval_ms t.tick_count h1]
    have h3 : t.tick_count ≤ elapsed_ms / t.interval_ms :=
      (Nat.le_div_iff_mul_le hpos).mpr (by rw [mul_comm] at h1; exact h1)
    omega
  have hnext : elapsed_ms ≤ (elapsed_ms / t.interval_ms + 1) * t.interval_ms :=
    le_of_lt
      (calc elapsed_ms
          = t.interval_ms * (elapsed_ms / t.interval_ms) + elapsed_ms % t.interval_ms :=
            (Nat.div_add_mod elapsed_ms t.interval_ms).symm
        _ < t.interval_ms * (elapsed_ms / t.interval_ms) + t.interval_ms :=
            Nat.add_lt_add_left (Nat.mod_lt elapsed_ms hpos) _
        _ = (elapsed_ms / t.interval_ms + 1) * t.interval_ms := by ring)
  simp only [PreciseTimer.should_tick]
  rw [if_pos hc1, if_pos hlate]
  refine ⟨rfl, hcount, ?_⟩
  show elapsed_ms ≤
    (t.tick_count + (elapsed_ms - t.next_tick) / t.interval_ms + 1) * t.interval_ms
  rw [hcount]
  exact hnext

/-- Witness for C3 (amended): state (interval 100, next_tick 300,
tick_count 3) polled at 550 fires once with counter 550/100 + 1 = 6 and
next_tick 600 ≥ 550. -/
theorem timer_catch_up_resync_witness :
    ((⟨100, 300, 3⟩ : PreciseTimer).should_tick 550).1 = some (300, 550) ∧
    ((⟨100, 300, 3⟩ : PreciseTimer).should_tick 550).2.tick_count = 550 / 100 + 1 ∧
    550 ≤ ((⟨100, 300, 3⟩ : PreciseTimer).should_tick 550).2.next_tick :=
  timer_catch_up_resync ⟨100, 300, 3⟩ 550 (by decide) (by decide) (by decide)

/-- C4, counterexample to the claim as stated: a freshly constructed timer
(interval 100, `next_tick = 100`, `tick_count = 0`) polled at 150 — the
normal case, 100 ≤ 150 ≤ 200 — increments the counter but sets `next_tick`
to `1 * 100 = 100`, i.e. it does not advance at all, instead of advancing by
one interval to 200. -/
theorem timer_normal_tick_cex :
    (PreciseTimer.new 100).next_tick ≤ 150 ∧
    150 ≤ (PreciseTimer.new 100).next_tick + (PreciseTimer.new 100).interval_ms ∧
    ((PreciseTimer.new 100).should_tick 150).2.next_tick =
      (PreciseTimer.new 100).next_tick ∧
    ((PreciseTimer.new 100).should_tick 150).2.next_tick ≠
      (PreciseTimer.new 100).next_tick + (PreciseTimer.new 100).interval_ms := by
  decide

/-- C4 as amended: on any timer state satisfying `next_tick =
tick_count * interval` (which holds after every fire, though not in the
freshly constructed state), a poll with `next_tick ≤ elapsed ≤ next_tick +
interval` fires, increments the counter by exactly one, advances `next_tick`
by exactly one interval, and keeps `next_tick` a multiple of the interval
(`tick_count * interval`, counted from the fixed start instant). -/
theorem timer_normal_tick_advance (t : PreciseTimer) (elapsed_ms : ℕ)
    (hinv : t.next_tick = t.tick_count * t.interval_ms)
    (hlo : t.next_tick ≤ elapsed_ms)
    (hhi : elapsed_ms ≤ t.next_tick + t.interval_ms) :
    (t.should_tick elapsed_ms).1 = some (t.next_tick, elapsed_ms) ∧
    (t.should_tick elapsed_ms).2.tick_count = t.tick_count + 1 ∧
    (t.should_tick elapsed_ms).2.next_tick = t.next_tick + t.interval_ms ∧
    (t.should_tick elapsed_ms).2.next_tick =
      (t.should_tick elapsed_ms).2.tick_count * t.interval_ms := by
  simp only [PreciseTimer.should_tick]
  rw [if_pos hlo, if_neg (not_lt.mpr hhi)]
  refine ⟨rfl, rfl, ?_, rfl⟩
  show (t.tick_count + 1) * t.interval_ms = t.next_tick + t.interval_ms
  rw [hinv, add_mul, one_mul]

/-- Witness for C4 (amended): state (interval 100, next_tick 300,
tick_count 3) polled at 350 fires with counter 4 and next_tick 400. -/
theorem timer_normal_tick_advance_witness :
    ((⟨100, 300, 3⟩ : PreciseTimer).should_tick 350).1 = some (300, 350) ∧
    ((⟨100, 300, 3⟩ : PreciseTimer).should_tick 350).2.tick_count = 3 + 1 ∧
    ((⟨100, 300, 3⟩ : PreciseTimer).should_tick 350).2.next_tick = 300 + 100 ∧
    ((⟨100, 300, 3⟩ : PreciseTimer).should_tick 350).2.next_tick =
      ((⟨100, 300, 3⟩ : PreciseTimer).should_tick 350).2.tick_count * 100 :=
  timer_normal_tick_advance ⟨100, 300, 3⟩ 350 (by decide) (by decide) (by decide)

/-- C1, counterexample to the claim as stated: a non-empty window can fail to
produce any `TwapResult` at all — one retained trade with quantity 0 (the
value the parser substitutes on a numeric parse failure) makes the total
volume 0 and `calculate_twap` returns `none` instead of a result with the
stated fields. -/
theorem twap_formula_cex :
    ([⟨100, 0, 5, false⟩] : List Trade) ≠ [] ∧
    calculate_twap 1000 [⟨100, 0, 5, false⟩] = none := by
  refine ⟨by simp, ?_⟩
  simp [calculate_twap, minStep, maxStep]

/-- C1 as amended: for every window that is non-empty after eviction and
whose quantities sum to a nonzero value, the recomputed `TwapResult` has
`price = Σ(price × quantity) / Σ(quantity)`, `volume = Σ(quantity)`,
`num_trades` = the number of retained trades, and
`spread = (max_price - min_price) / min_price * 100`; in particular, for
exactly the trades (price 100, quantity 1) and (price 200, quantity 1) the
result is price 150, volume 2, spread 100. -/
theorem twap_formula (now : ℕ) (t : Trade) (rest : List Trade)
    (hvol : ((t :: rest).map Trade.quantity).sum ≠ 0) :
    calculate_twap now (t :: rest) =
      some { price := ((t :: rest).map fun x => x.price * x.quantity).sum /
                        ((t :: rest).map Trade.quantity).sum
             volume := ((t :: rest).map Trade.quantity).sum
             num_trades := (t :: rest).length
             timestamp := now
             spread := some
               (((rest.map Trade.price).foldl max t.price -
                   (rest.map Trade.price).foldl min t.price) /
                 (rest.map Trade.price).foldl min t.price * 100) } ∧
    calculate_twap now [⟨100, 1, 0, false⟩, ⟨200, 1, 0, false⟩] =
      some { price := 150, volume := 2, num_trades := 2, timestamp := now,
             spread := some 100 } := by
  constructor
  · simp only [calculate_twap, List.isEmpty_cons, Bool.false_eq_true, if_false,
      total_volume_fold, total_value_fold, zero_add, foldl_minStep_cons,
      foldl_maxStep_cons]
    rw [if_neg hvol]
  · norm_num [calculate_twap, minStep, maxStep]

/-- Witness for C1 (amended): the spec's own example, trades (100, 1) and
(200, 1) — total volume 2 ≠ 0, TWAP 150, spread 100. -/
theorem twap_formula_witness :
    calculate_twap 7 [⟨100, 1, 0, false⟩, ⟨200, 1, 0, false⟩] =
      some { price := 150, volume := 2, num_trades := 2, timestamp := 7,
             spread := some 100 } :=
  (twap_formula 7 ⟨100, 1, 0, false⟩ [⟨200, 1, 0, false⟩] (by norm_num)).2

/-- One capped push keeps the per-symbol buffer length within the cap. -/
theorem buffer_push_length (max_buffer_size : ℕ) (buf : List Trade) (t : Trade)
    (h : buf.length ≤ max_buffer_size) :
    (buffer_push max_buffer_size buf t).length ≤ max_buffer_size := by
  simp only [buffer_push]
  split
  · simp only [List.length_drop, List.length_append, List.length_cons,
      List.length_nil]
    omega
  · rename_i h2
    simp only [List.length_append, List.length_cons, List.length_nil] at h2 ⊢
    omega

/-- Folding capped pushes over a buffer within its cap keeps exactly the most
recent `max_buffer_size` elements: the result is the concatenation with the
overflow dropped from the front. -/
theorem foldl_buffer_push (max_buffer_size : ℕ) : ∀ (ts buf : List Trade),
    buf.length ≤ max_buffer_size →
    List.foldl (buffer_push max_buffer_size) buf ts =
      (buf ++ ts).drop (buf.length + ts.length - max_buffer_size) := by
  intro ts
  induction ts with
  | nil =>
    intro buf h
    simp [Nat.sub_eq_zero_of_le h]
  | cons t ts ih =>
    intro buf h
    rw [List.foldl_cons]
    by_cases hc : max_buffer_size < buf.length + 1
    · have hbl : buf.length = max_buffer_size := by omega
      have hstep : buffer_push max_buffer_size buf t = (buf ++ [t]).drop 1 := by
        simp only [buffer_push, List.length_append, List.length_cons, List.length_nil]
        rw [if_pos (by omega)]
      have hlen : ((buf ++ [t]).drop 1).length ≤ max_buffer_size := by
        simp only [List.length_drop, List.length_append, List.length_cons,
          List.length_nil]
        omega
      rw [hstep, ih _ hlen]
      have e1 : ((buf ++ [t]).drop 1).length + ts.length - max_buffer_size =
          ts.length := by
        simp only [List.length_drop, List.length_append, List.length_cons,
          List.length_nil]
        omega
      have e2 : (buf ++ [t]).drop 1 ++ ts = ((buf ++ [t]) ++ ts).drop 1 :=
        (List.drop_append_of_le_length (by simp)).symm
      rw [e1, e2, List.drop_drop, List.append_assoc, List.singleton_append]
      congr 1
      simp only [List.length_cons]
      omega
    · have hstep : buffer_push max_buffer_size buf t = buf ++ [t] := by
        simp only [buffer_push, List.length_append, List.length_cons, List.length_nil]
        rw [if_neg (by omega)]
      have hlen : (buf ++ [t]).length ≤ max_buffer_size := by
        simp only [List.length_append, List.length_cons, List.length_nil]
        omega
      rw [hstep, ih _ hlen, List.append_assoc, List.singleton_append]
      congr 1
      simp only [List.length_append, List.length_cons, List.length_nil]
      omega

/-- Folding `add_trade "BTCUSDT"` over a `TradeBuffer` only folds capped
pushes into the BTC buffer. -/
theorem foldl_add_trade_btc : ∀ (ts : List Trade) (b : TradeBuffer),
    List.foldl (fun s tr => s.add_trade "BTCUSDT" tr) b ts =
      { b with btc_trades :=
          List.foldl (buffer_push b.max_buffer_size) b.btc_trades ts } := by
  intro ts
  induction ts with
  | nil => intro b; rfl
  | cons t ts ih =>
    intro b
    rw [List.foldl_cons, List.foldl_cons]
    have hstep : b.add_trade "BTCUSDT" t =
        { b with btc_trades := buffer_push b.max_buffer_size b.btc_trades t } := by
      simp [TradeBuffer.add_trade]
    rw [hstep, ih]

/-- Folding `add_trade "ETHUSDT"` over a `TradeBuffer` only folds capped
pushes into the ETH buffer. -/
theorem foldl_add_trade_eth : ∀ (ts : List Trade) (b : TradeBuffer),
    List.foldl (fun s tr => s.add_trade "ETHUSDT" tr) b ts =
      { b with eth_trades :=
          List.foldl (buffer_push b.max_buffer_size) b.eth_trades ts } := by
  intro ts
  induction ts with
  | nil => intro b; rfl
  | cons t ts ih =>
    intro b
    rw [List.foldl_cons, List.foldl_cons]
    have hstep : b.add_trade "ETHUSDT" t =
        { b with eth_trades := buffer_push b.max_buffer_size b.eth_trades t } := by
      simp [TradeBuffer.add_trade]
    rw [hstep, ih]

/-- C6: appending N+1 trades to a fresh `TradeBuffer` capped at N, for either
recognized symbol, drops exactly the oldest trade — the buffer then holds the
N most recent trades in arrival order (the tail of the appended sequence,
newest last) — and one `add_trade` on any buffer within its cap keeps both
per-symbol lengths within the cap, for every symbol string. -/
theorem trade_buffer_fifo (N : ℕ) (ts : List Trade) (h : ts.length = N + 1) :
    (List.foldl (fun b tr => b.add_trade "BTCUSDT" tr) (TradeBuffer.new N)
        ts).btc_trades = ts.tail ∧
    (List.foldl (fun b tr => b.add_trade "ETHUSDT" tr) (TradeBuffer.new N)
        ts).eth_trades = ts.tail ∧
    (∀ (b : TradeBuffer) (symbol : String) (tr : Trade),
      b.btc_trades.length ≤ b.max_buffer_size →
      b.eth_trades.length ≤ b.max_buffer_size →
      (b.add_trade symbol tr).btc_trades.length ≤ b.max_buffer_size ∧
      (b.add_trade symbol tr).eth_trades.length ≤ b.max_buffer_size) := by
  refine ⟨?_, ?_, ?_⟩
  · rw [foldl_add_trade_btc]
    show List.foldl (buffer_push N) [] ts = ts.tail
    rw [foldl_buffer_push N ts [] (by simp), List.nil_append, List.length_nil, h]
    rw [show 0 + (N + 1) - N = 1 by omega, List.drop_one]
  · rw [foldl_add_trade_eth]
    show List.foldl (buffer_push N) [] ts = ts.tail
    rw [foldl_buffer_push N ts [] (by simp), List.nil_append, List.length_nil, h]
    rw [show 0 + (N + 1) - N = 1 by omega, List.drop_one]
  · intro b symbol tr hbtc heth
    by_cases h1 : symbol = "BTCUSDT"
    · simp only [TradeBuffer.add_trade, if_pos h1]
      exact ⟨buffer_push_length _ _ _ hbtc, heth⟩
    · by_cases h2 : symbol = "ETHUSDT"
      · simp only [TradeBuffer.add_trade, if_neg h1, if_pos h2]
        exact ⟨hbtc, buffer_push_length _ _ _ heth⟩
      · simp only [TradeBuffer.add_trade, if_neg h1, if_neg h2]
        exact ⟨hbtc, heth⟩

/-- Witness for C6: cap 1, two appended trades — each per-symbol buffer keeps
only the second trade. -/
theorem trade_buffer_fifo_witness :
    (List.foldl (fun b tr => b.add_trade "BTCUSDT" tr) (TradeBuffer.new 1)
        [⟨1, 1, 1, false⟩, ⟨2, 1, 2, false⟩]).btc_trades = [⟨2, 1, 2, false⟩] ∧
    (List.foldl (fun b tr => b.add_trade "ETHUSDT" tr) (TradeBuffer.new 1)
        [⟨1, 1, 1, false⟩, ⟨2, 1, 2, false⟩]).eth_trades = [⟨2, 1, 2, false⟩] :=
  ⟨(trade_buffer_fifo 1 [⟨1, 1, 1, false⟩, ⟨2, 1, 2, false⟩] (by simp)).1,
   (trade_buffer_fifo 1 [⟨1, 1, 1, false⟩, ⟨2, 1, 2, false⟩] (by simp)).2.1⟩

/-- C9: the drain loop in `binance-oracle/src/main.rs` realizes "drain" as
`get_btc_trades()` (a snapshot under one lock acquisition) followed later by
`clear_btc()` (a second, separate lock acquisition). Each lock acquisition is
atomic, so an ingester append can interleave between the two. This theorem
evaluates that interleaving at a concrete input: starting from a buffer
holding trade A, the snapshot returns [A]; trade B is then appended by
`add_trade`; `clear_btc` afterwards empties the buffer — so B is neither in
the returned snapshot nor retained for the next drain. It is silently lost,
contradicting the claimed atomicity of drain. -/
theorem drain_clear_race_loses_append :
    ((⟨[⟨100, 1, 1, false⟩], [], 1000⟩ : TradeBuffer).get_btc_trades =
      [⟨100, 1, 1, false⟩]) ∧
    ((⟨200, 1, 2, false⟩ : Trade) ∉
      (⟨[⟨100, 1, 1, false⟩], [], 1000⟩ : TradeBuffer).get_btc_trades) ∧
    (((⟨[⟨100, 1, 1, false⟩], [], 1000⟩ : TradeBuffer).add_trade "BTCUSDT"
        ⟨200, 1, 2, false⟩).clear_btc.btc_trades = []) := by
  refine ⟨rfl, ?_, rfl⟩
  simp [TradeBuffer.get_btc_trades]
